import Mathlib

/-!
# Edition gallery: discovery, ordering and cover cache

A shallow embedding of `src/EditionGallery.jsx`:

* the three regular expressions used by the component (`/\.pdf$/i`,
  `/edition\s*4/i`, `/(\d+)/`) as executable matchers on character lists;
* `variants`, `exists`, `resolveEditionFile` and the discovery effect, with the
  static host given by two oracles (answer to `HEAD`, answer to a ranged `GET`);
* the `editions` memo (map to `{id, file, title}`, then a stable sort), with ids
  as Numbers: integers that are doubles, or `Infinity`;
* `renderFirstPageCover` as a state transformer over the module-level
  `coverCache` map, `localStorage` and a log of calls into the PDF engine.

Strings are sequences of Unicode scalar values; the three patterns only ever
inspect ASCII letters, digits and the `\s` class, so matching agrees with the
UTF-16 view of the source.
-/

namespace EditionGallery

/-! ## Characters and regular expressions -/

/-- The class `\d` (no `u` flag): the ten ASCII digits. -/
def isDigit (c : Char) : Bool :=
  decide (48 ≤ c.toNat) && decide (c.toNat ≤ 57)

/-- The class `\s`: ECMAScript white space and line terminators. -/
def isSpace (c : Char) : Bool :=
  let v := c.toNat
  v == 0x09 || v == 0x0A || v == 0x0B || v == 0x0C || v == 0x0D || v == 0x20 ||
  v == 0xA0 || v == 0x1680 || (decide (0x2000 ≤ v) && decide (v ≤ 0x200A)) ||
  v == 0x2028 || v == 0x2029 || v == 0x202F || v == 0x205F || v == 0x3000 ||
  v == 0xFEFF

/-- One pattern character under the `i` flag. The pattern characters used in
the source are ASCII and given here in lower case; an input character matches
when it is the same ASCII character up to case. -/
def matchChar (p c : Char) : Bool := c.toLower == p

/-- Match a literal (lower-case) pattern at the start of `s` under the `i`
flag; on success the unconsumed rest of the input is returned. -/
def matchLit : List Char → List Char → Option (List Char)
  | [], s => some s
  | _ :: _, [] => none
  | p :: ps, c :: cs => if matchChar p c then matchLit ps cs else none

/-- An unanchored regular expression tries every start position from left to
right, the end of the input included. -/
def searchFrom (m : List Char → Bool) : List Char → Bool
  | [] => m []
  | c :: cs => m (c :: cs) || searchFrom m cs

/-- The pattern `\.pdf$` (flag `i`) tried at one start position. -/
def pdfAt (s : List Char) : Bool :=
  matchLit ['.', 'p', 'd', 'f'] s == some []

/-- The test `/\.pdf$/i.test(n)`. -/
def testPdf (n : String) : Bool := searchFrom pdfAt n.data

/-- The pattern `edition\s*4` (flag `i`) tried at one start position: the word,
then the longest run of white space, then the digit `4`. -/
def edition4At (s : List Char) : Bool :=
  match matchLit ['e', 'd', 'i', 't', 'i', 'o', 'n'] s with
  | some rest => (rest.dropWhile isSpace).head? == some '4'
  | none => false

/-- The test `/edition\s*4/i.test(n)`. -/
def testEdition4 (n : String) : Bool := searchFrom edition4At n.data

/-! ## `encodeURIComponent` -/

/-- Characters that `encodeURIComponent` leaves alone:
letters, digits and `- _ . ! ~ * ' ( )`. -/
def isUnreserved (c : Char) : Bool :=
  c.isAlphanum || [45, 95, 46, 33, 126, 42, 39, 40, 41].contains c.toNat

/-- Upper-case hexadecimal digit. -/
def hexDigit (n : Nat) : Char :=
  if n < 10 then Char.ofNat (48 + n) else Char.ofNat (55 + n)

/-- The UTF-8 octets of a code point. -/
def utf8Bytes (v : Nat) : List Nat :=
  if v < 0x80 then [v]
  else if v < 0x800 then [0xC0 + v / 64, 0x80 + v % 64]
  else if v < 0x10000 then [0xE0 + v / 4096, 0x80 + v / 64 % 64, 0x80 + v % 64]
  else [0xF0 + v / 262144, 0x80 + v / 4096 % 64, 0x80 + v / 64 % 64, 0x80 + v % 64]

/-- Percent-escape of one octet. -/
def percent (b : Nat) : List Char := ['%', hexDigit (b / 16), hexDigit (b % 16)]

/-- The function `encodeURIComponent` on a well-formed string. -/
def encodeURIComponent (s : String) : String :=
  String.mk (s.data.flatMap fun c =>
    if isUnreserved c then [c] else (utf8Bytes c.toNat).flatMap percent)

/-- The template `/docs/${encodeURIComponent(v)}`. -/
def docPath (v : String) : String := "/docs/" ++ encodeURIComponent v

/-! ## File discovery -/

/-- The static file host as seen through `fetch`: for each URL, whether a
`HEAD` request resolves with `r.ok`, and whether a `GET` carrying
`Range: bytes=0-0` resolves with `r.ok`. A rejected fetch counts as `false`
(both call sites catch it). -/
structure Host where
  head : String → Bool
  range : String → Bool

/-- The function `exists(p)`: a `HEAD` request, `false` when it throws. -/
def «exists» (h : Host) (p : String) : Bool := h.head p

/-- The function `variants(n)`. -/
def variants (n : Nat) : List String :=
  let b := "Edition " ++ toString n
  [b ++ ".pdf", b ++ "_.pdf", b ++ " (1).pdf", b ++ "  (1).pdf", b ++ ".PDF"]

/-- The loop of `resolveEditionFile` over a list of variants: the first one
for which the `HEAD` check or the ranged fallback succeeds. -/
def resolveFrom (h : Host) : List String → Option String
  | [] => none
  | v :: vs =>
    if «exists» h (docPath v) then some v
    else if h.range (docPath v) then some v
    else resolveFrom h vs

/-- The function `resolveEditionFile(n)`; `none` is the source's `null`. -/
def resolveEditionFile (h : Host) (n : Nat) : Option String :=
  resolveFrom h (variants n)

/-- The requests issued by the loop of `resolveEditionFile`, in order. -/
inductive Request
  | head (url : String)
  | range (url : String)
  deriving DecidableEq, Repr

/-- Requests sent while resolving over a list of variants. -/
def requestsFrom (h : Host) : List String → List Request
  | [] => []
  | v :: vs =>
    if «exists» h (docPath v) then [Request.head (docPath v)]
    else if h.range (docPath v) then [Request.head (docPath v), Request.range (docPath v)]
    else Request.head (docPath v) :: Request.range (docPath v) :: requestsFrom h vs

/-- A parsed JSON document, as far as the manifest filter looks at it: a
string, an array, or anything else (null, boolean, number, object). -/
inductive Json
  | str (s : String)
  | arr (items : List Json)
  | other

/-- The manifest filter
`(Array.isArray(data) ? data : []).filter(n => typeof n === "string" && /\.pdf$/i.test(n) && !/edition\s*4/i.test(n))`. -/
def manifestNames : Json → List String
  | Json.arr items => items.filterMap fun
      | Json.str n => if testPdf n && !testEdition4 n then some n else none
      | _ => none
  | _ => []

/-- The candidate numbers `nums`. -/
def nums : List Nat := [9, 8, 7, 6, 5, 3]

/-- The probing loop: `found` after visiting the given candidates. -/
def probe (h : Host) : List Nat → List String
  | [] => []
  | n :: ns =>
    match resolveEditionFile h n with
    | some v => if v != "" && !testEdition4 v then v :: probe h ns else probe h ns
    | none => probe h ns

/-- The requests the probing loop sends. -/
def probeRequests (h : Host) (ns : List Nat) : List Request :=
  ns.flatMap fun n => requestsFrom h (variants n)

/-- The component state written by the discovery effect, together with the
probe requests the effect sent. Initially `files = []`, `discovered = false`. -/
structure Discovery where
  files : List String
  discovered : Bool
  probes : List Request
  deriving DecidableEq, Repr

/-- The discovery effect. `manifest` is the outcome of fetching and parsing
`/docs/index.json`: `none` when the fetch throws, the response is not `ok`, or
the body is not JSON. `alive₁` is the value of the `alive` flag when line 200
reads it; `alive₂` tells whether the cleanup stays away until line 209 reads
it. The flag never turns back to `true`, so the second read gives
`alive₁ && alive₂`. A cleaned-up effect writes nothing: the state keeps its
initial `files = []`, `discovered = false`. -/
def discover (manifest : Option Json) (h : Host) (alive₁ alive₂ : Bool) : Discovery :=
  let names := match manifest with
    | some data => manifestNames data
    | none => []
  if alive₁ && !names.isEmpty then
    { files := names, discovered := true, probes := [] }
  else if alive₁ && alive₂ then
    { files := probe h nums, discovered := true, probes := probeRequests h nums }
  else
    { files := [], discovered := false, probes := probeRequests h nums }

/-! ## Numbers -/

/-- The Number values an edition id can take: a non-negative integer that is
a double, or `Infinity`. -/
inductive JsNumber
  | fin (n : Nat)
  | inf
  deriving DecidableEq, Repr

/-- The order of these Number values; `Infinity` is the largest. -/
def JsNumber.le : JsNumber → JsNumber → Bool
  | JsNumber.fin a, JsNumber.fin b => decide (a ≤ b)
  | _, JsNumber.inf => true
  | JsNumber.inf, JsNumber.fin _ => false

/-- The spacing of the doubles around `n`: the least power of two `p` for which
`n / p` is below `2^53` (fuel `n` is always enough). -/
def ulp : Nat → Nat → Nat
  | 0, _ => 1
  | fuel + 1, n => if n < 2 ^ 53 then 1 else 2 * ulp fuel (n / 2)

/-- The Number for a mathematical integer: the integer itself below `2^53`,
otherwise the nearest multiple of the spacing, the even multiple at a tie, and
`Infinity` once that reaches `2^1024`. -/
def toNumber (n : Nat) : JsNumber :=
  if n < 2 ^ 53 then JsNumber.fin n
  else
    let p := ulp n n
    let q := n / p
    let r := n % p
    let m := if p < 2 * r ∨ (2 * r = p ∧ q % 2 = 1) then q + 1 else q
    if m * p < 2 ^ 1024 then JsNumber.fin (m * p) else JsNumber.inf

/-- Number of decimal digits. -/
def digitCount (n : Nat) : Nat := (Nat.toDigits 10 n).length

/-- The integer `s × 10^(n-k)` that `Number::toString` prints for the double
`x`: least number of significant digits `k` among the decimals that read back
as `x`, the one nearest to `x` among those. The search starts with one
significant digit (scale `10^j`, `j` the digit count less one) and adds one
digit at a time. -/
def shortest (x : Nat) : Nat → Nat → Nat
  | 0, _ => x
  | fuel + 1, j =>
    let p := 10 ^ j
    let lo := x / p * p
    let hi := lo + p
    if toNumber lo = JsNumber.fin x then
      if toNumber hi = JsNumber.fin x then (if x - lo ≤ hi - x then lo else hi) else lo
    else if toNumber hi = JsNumber.fin x then hi
    else shortest x fuel (j - 1)

/-- Decimal digits without the trailing zeros. -/
def stripZeros (ds : List Char) : List Char :=
  (ds.reverse.dropWhile fun c => c == '0').reverse

/-- The string a template literal puts for a Number (`Number::toString`, radix
10): plain digits up to 21 digits, exponent form above, `Infinity`. -/
def numberToString : JsNumber → String
  | JsNumber.inf => "Infinity"
  | JsNumber.fin x =>
    let v := shortest x (digitCount x) (digitCount x - 1)
    let ds := Nat.toDigits 10 v
    if ds.length ≤ 21 then String.mk ds
    else
      match stripZeros ds with
      | [] => "0"
      | [d] => String.mk [d] ++ "e+" ++ toString (ds.length - 1)
      | d :: rest => String.mk (d :: '.' :: rest) ++ "e+" ++ toString (ds.length - 1)

/-! ## The ordered edition list -/

/-- An entry of the `editions` memo. -/
structure Edition where
  id : JsNumber
  file : String
  title : String
  deriving DecidableEq, Repr

/-- The capture of `fn.match(/(\d+)/)`: the leftmost maximal run of digits,
empty when the name has no digit. -/
def firstDigits (fn : List Char) : List Char :=
  (fn.dropWhile fun c => !isDigit c).takeWhile isDigit

/-- The mathematical integer `parseInt(digits, 10)` reads from a run of
decimal digits, before it is turned into a Number (all digits are read). -/
def parseInt (digits : List Char) : Nat :=
  digits.foldl (fun acc c => 10 * acc + (c.toNat - 48)) 0

/-- The expression `parseInt((fn.match(/(\d+)/) || [0,0])[1], 10) || 0`.
Without a match the operand is `0`; the trailing `|| 0` only replaces `0` (and
`NaN`, which does not arise) by `0`. -/
def editionId (fn : String) : JsNumber :=
  match firstDigits fn.data with
  | [] => JsNumber.fin 0
  | d :: ds => toNumber (parseInt (d :: ds))

/-- The object literal `{ id, file: fn, title }` built for one file. -/
def mkEdition (fn : String) : Edition :=
  let id := editionId fn
  { id := id, file := fn, title := "Transylvania Insights — Edition " ++ numberToString id }

/-- The comparator `(a, b) => b.id - a.id`, of which `sort` uses the sign. For
two finite ids the difference of the doubles has the sign of the exact
difference; `Infinity - Infinity` is `NaN`, which `sort` takes as `0`. -/
def compareEditions (a b : Edition) : Int :=
  match b.id, a.id with
  | JsNumber.fin x, JsNumber.fin y => (x : Int) - (y : Int)
  | JsNumber.inf, JsNumber.inf => 0
  | JsNumber.inf, JsNumber.fin _ => 1
  | JsNumber.fin _, JsNumber.inf => -1

/-- The method `Array.prototype.sort(cmp)`: a stable sort, in which `a` stays
in front of a later `b` unless `cmp(a, b) > 0`. -/
def sort {α : Type} (cmp : α → α → Int) (xs : List α) : List α :=
  xs.insertionSort fun a b => cmp a b ≤ 0

/-- The `editions` memo. -/
def editions (files : List String) : List Edition :=
  sort compareEditions (files.map mkEdition)

/-! ## Cover rendering and the two cache tiers -/

/-- Lookup in a string-keyed `Map` or `Storage`, kept as an association list
in insertion order. -/
def mapGet (m : List (String × String)) (k : String) : Option String :=
  match m with
  | [] => none
  | (k', v) :: rest => if k' = k then some v else mapGet rest k

/-- The update `set(k, v)` / `setItem(k, v)`: replace the value of an existing
key in place, otherwise append. -/
def mapSet (m : List (String × String)) (k v : String) : List (String × String) :=
  match m with
  | [] => [(k, v)]
  | (k', v') :: rest => if k' = k then (k', v) :: rest else (k', v') :: mapSet rest k v

/-- The function `cacheKey`. -/
def cacheKey (p : String) : String := "cover::" ++ p

/-- The property `length` of a string: its number of UTF-16 code units. -/
def jsLength (s : String) : Nat :=
  (s.data.map fun c => if c.toNat < 0x10000 then 1 else 2).sum

/-- Calls into the PDF engine made by `renderFirstPageCover`. -/
inductive PdfCall
  | getDocument (url : String)
  | getPage (url : String)
  | render (url : String) (scale : ℚ)
  | toDataURL (url : String)
  | destroy (url : String)
  deriving DecidableEq

/-- What rasterising and encoding page 1 at a given scale leads to. -/
inductive Raster
  | renderFails
  | encodeFails
  | image (dataUrl : String)

/-- What the PDF engine does with one `getDocument` invocation: the loading
promise rejects, `getPage(1)` rejects, or page 1 is obtained with its width at
scale 1, its rasterisation per scale, and whether `destroy()` later resolves. -/
inductive Pdf
  | openFails
  | pageFails
  | page (width : ℚ) (raster : ℚ → Raster) (destroyOk : Bool)

/-- The stage at which `renderFirstPageCover` rejects. -/
inductive RenderError
  | load
  | page
  | render
  | encode
  deriving DecidableEq

/-- The module-level `coverCache`, the browser's `localStorage` (`none` when
touching it throws, as with storage disabled) and the log of PDF engine
calls. -/
structure World where
  coverCache : List (String × String)
  localStorage : Option (List (String × String))
  pdfLog : List PdfCall
  deriving DecidableEq

/-- The expression `Math.max(0.12, Math.min(3, targetWidth / base.width))`.
Numbers are taken as rationals; `Math.max` and `Math.min` compare without
rounding. Page widths are non-zero. -/
def renderScale (targetWidth baseWidth : ℚ) : ℚ :=
  max (3 / 25) (min 3 (targetWidth / baseWidth))

/-- The guarded read `try { cached = localStorage.getItem(key); if (cached) … } catch {}`:
the stored value when the read succeeds and the value is truthy. -/
def cachedCover (localStorage : Option (List (String × String))) (key : String) :
    Option String :=
  match localStorage with
  | none => none
  | some items =>
    match mapGet items key with
    | some cached => if cached = "" then none else some cached
    | none => none

/-- The guarded write
`try { if (dataUrl.length < 2_000_000) localStorage.setItem(key, dataUrl); } catch {}`.
`quotaOk items key value` tells whether `setItem` succeeds. -/
def storeCover (quotaOk : List (String × String) → String → String → Bool)
    (localStorage : Option (List (String × String))) (key dataUrl : String) :
    Option (List (String × String)) :=
  if jsLength dataUrl < 2000000 then
    match localStorage with
    | none => none
    | some items => if quotaOk items key dataUrl then some (mapSet items key dataUrl) else some items
  else localStorage

/-- The synchronous head of `renderFirstPageCover`, up to its first `await`:
the two cache lookups and, on a miss in both, the call of `getDocument`.
Returns `some img` when the call settles with a cached image, `none` when it
is now waiting for the document. -/
def coverStart (w : World) (path : String) : World × Option String :=
  match mapGet w.coverCache path with
  | some img => (w, some img)
  | none =>
    match cachedCover w.localStorage (cacheKey path) with
    | some cached => ({ w with coverCache := mapSet w.coverCache path cached }, some cached)
    | none => ({ w with pdfLog := w.pdfLog ++ [PdfCall.getDocument path] }, none)

/-- The rest of `renderFirstPageCover` once the document promise has settled:
page, viewport, rasterisation, encoding, `destroy`, and the two cache writes.
The caches are only touched in the final synchronous stretch. -/
def coverFinish (doc : Pdf) (quotaOk : List (String × String) → String → String → Bool)
    (w : World) (path : String) (targetWidth : ℚ) : World × Except RenderError String :=
  match doc with
  | Pdf.openFails => (w, Except.error RenderError.load)
  | Pdf.pageFails =>
    ({ w with pdfLog := w.pdfLog ++ [PdfCall.getPage path] }, Except.error RenderError.page)
  | Pdf.page width raster _ =>
    let scale := renderScale targetWidth width
    match raster scale with
    | Raster.renderFails =>
      ({ w with pdfLog := w.pdfLog ++ [PdfCall.getPage path, PdfCall.render path scale] },
        Except.error RenderError.render)
    | Raster.encodeFails =>
      ({ w with pdfLog := w.pdfLog ++
          [PdfCall.getPage path, PdfCall.render path scale, PdfCall.toDataURL path] },
        Except.error RenderError.encode)
    | Raster.image dataUrl =>
      ({ coverCache := mapSet w.coverCache path dataUrl
         localStorage := storeCover quotaOk w.localStorage (cacheKey path) dataUrl
         pdfLog := w.pdfLog ++
          [PdfCall.getPage path, PdfCall.render path scale, PdfCall.toDataURL path,
           PdfCall.destroy path] },
        Except.ok dataUrl)

/-- Continue a started call: a cache hit has already settled, a miss runs
`coverFinish`. -/
def coverResume (doc : Pdf) (quotaOk : List (String × String) → String → String → Bool)
    (w : World) (path : String) (targetWidth : ℚ) (started : Option String) :
    World × Except RenderError String :=
  match started with
  | some img => (w, Except.ok img)
  | none => coverFinish doc quotaOk w path targetWidth

/-- The function `renderFirstPageCover(path, targetWidth)` run without another
task in between. `doc` is how the PDF engine treats this invocation, should it
be reached. -/
def renderFirstPageCover (doc : Pdf)
    (quotaOk : List (String × String) → String → String → Bool)
    (w : World) (path : String) (targetWidth : ℚ) : World × Except RenderError String :=
  let started := coverStart w path
  coverResume doc quotaOk started.1 path targetWidth started.2

/-- Two calls for the same path where the second one is made while the first
is still waiting for its document; afterwards the first call runs to its end,
then the second. `doc₁` and `doc₂` are the engine's treatment of the
respective `getDocument` invocations. Returns the final world and both
results. -/
def overlappingCalls (doc₁ doc₂ : Pdf)
    (quotaOk : List (String × String) → String → String → Bool)
    (w : World) (path : String) (targetWidth : ℚ) :
    World × Except RenderError String × Except RenderError String :=
  let s₁ := coverStart w path
  let s₂ := coverStart s₁.1 path
  let f₁ := coverResume doc₁ quotaOk s₂.1 path targetWidth s₁.2
  let f₂ := coverResume doc₂ quotaOk f₁.1 path targetWidth s₂.2
  (f₂.1, f₁.2, f₂.2)

/-- What can happen between two calls of `renderFirstPageCover`: some call
runs its synchronous head, or a call that was waiting for its document runs to
its end. -/
inductive Step
  | start (path : String)
  | finish (doc : Pdf) (quotaOk : List (String × String) → String → String → Bool)
      (path : String) (targetWidth : ℚ)

/-- The world after one step. -/
def Step.run (w : World) : Step → World
  | Step.start path => (coverStart w path).1
  | Step.finish doc quotaOk path targetWidth => (coverFinish doc quotaOk w path targetWidth).1

/-- The world after a sequence of steps. -/
def runSteps (w : World) (steps : List Step) : World :=
  steps.foldl Step.run w

/-- Whether a step is the end of a render of the given path. -/
def Step.finishes (path : String) : Step → Bool
  | Step.start _ => false
  | Step.finish _ _ path' _ => path' == path

/-- How often `getDocument` was called for a path. -/
def renderCount (w : World) (path : String) : Nat :=
  w.pdfLog.count (PdfCall.getDocument path)

/-- How often `destroy` was called for a path. -/
def destroyCount (w : World) (path : String) : Nat :=
  w.pdfLog.count (PdfCall.destroy path)

/-! ## The two filename patterns in words -/

/-- The spec's "PDF document" pattern in words: the name ends in `.pdf`, letter
case ignored. -/
def EndsInPdf (n : String) : Prop :=
  ∃ pre ext, n.data = pre ++ ext ∧ ext.map Char.toLower = ['.', 'p', 'd', 'f']

/-- The exclusion pattern in words: somewhere in the name the word `edition` in
any letter case is followed by any amount of white space and the digit `4`. -/
def MatchesExclusion (n : String) : Prop :=
  ∃ pre word ws post, n.data = pre ++ word ++ ws ++ '4' :: post ∧
    word.map Char.toLower = ['e', 'd', 'i', 't', 'i', 'o', 'n'] ∧ ∀ c ∈ ws, isSpace c = true

/-! ## Lemmas about sorting -/

theorem filter_orderedInsert {α : Type} (r : α → α → Prop) [DecidableRel r]
    (p : α → Bool) (a : α) (l : List α)
    (h : p a = true → ∀ b ∈ l, p b = true → r a b) :
    (l.orderedInsert r a).filter p = (a :: l).filter p := by
  induction l with
  | nil => simp
  | cons b l ih =>
    have ih' := ih fun ha c hc hpc => h ha c (List.mem_cons_of_mem _ hc) hpc
    by_cases hab : r a b
    · simp [List.orderedInsert, hab]
    · have hnot : ¬ (p a = true ∧ p b = true) := fun hh =>
        hab (h hh.1 b (List.mem_cons_self _ _) hh.2)
      simp only [List.orderedInsert, hab, if_false]
      rw [List.filter_cons, ih']
      by_cases hpa : p a = true
      · have hpb : p b = false := by
          cases hb : p b with
          | false => rfl
          | true => exact absurd ⟨hpa, hb⟩ hnot
        simp [List.filter_cons, hpa, hpb]
      · simp [List.filter_cons, hpa]

theorem filter_insertionSort {α : Type} (r : α → α → Prop) [DecidableRel r]
    (p : α → Bool) (l : List α)
    (h : ∀ a b, p a = true → p b = true → r a b) :
    (l.insertionSort r).filter p = l.filter p := by
  induction l with
  | nil => simp
  | cons a l ih =>
    rw [List.insertionSort, filter_orderedInsert r p a _ (fun ha b _ hb => h a b ha hb)]
    simp [List.filter_cons, ih]

theorem firstDigits_none (s : List Char) (h : ∀ c ∈ s, isDigit c = false) :
    firstDigits s = [] := by
  unfold firstDigits
  have : s.dropWhile (fun c => !isDigit c) = [] := by
    rw [List.dropWhile_eq_nil_iff]
    intro c hc
    simp [h c hc]
  rw [this]
  rfl

theorem firstDigits_run (pre ds post : List Char)
    (hpre : ∀ c ∈ pre, isDigit c = false) (hds : ∀ c ∈ ds, isDigit c = true)
    (hne : ds ≠ []) (hpost : ∀ c, post.head? = some c → isDigit c = false) :
    firstDigits (pre ++ ds ++ post) = ds := by
  unfold firstDigits
  induction pre with
  | cons c pre ih =>
    have hc : isDigit c = false := hpre c (List.mem_cons_self _ _)
    simp only [List.cons_append, List.dropWhile_cons, hc, Bool.not_false, if_true]
    exact ih fun d hd => hpre d (List.mem_cons_of_mem _ hd)
  | nil =>
    cases ds with
    | nil => exact absurd rfl hne
    | cons d ds =>
      have hd : isDigit d = true := hds d (List.mem_cons_self _ _)
      simp only [List.nil_append, List.cons_append, List.dropWhile_cons, hd, Bool.not_true,
        Bool.false_eq_true, if_false]
      have htake : ∀ (l : List Char), (∀ c ∈ l, isDigit c = true) →
          (l ++ post).takeWhile isDigit = l := by
        intro l hl
        induction l with
        | nil =>
          cases post with
          | nil => rfl
          | cons q post => simp [List.takeWhile_cons, hpost q rfl]
        | cons x l ihl =>
          simp only [List.cons_append, List.takeWhile_cons, hl x (List.mem_cons_self _ _),
            if_true]
          rw [ihl fun c hc => hl c (List.mem_cons_of_mem _ hc)]
      exact htake (d :: ds) hds

/-! ## Lemmas about numbers -/

theorem ulp_spec (fuel n : Nat) (hfuel : n ≤ fuel) (hn : 2 ^ 53 ≤ n) :
    ∃ e, ulp fuel n = 2 ^ e ∧ 2 ^ 52 * 2 ^ e ≤ n ∧ n < 2 ^ 53 * 2 ^ e := by
  induction fuel generalizing n with
  | zero =>
    have : 0 < 2 ^ 53 := by norm_num
    omega
  | succ fuel ih =>
    have hlt : ¬ n < 2 ^ 53 := by omega
    simp only [ulp, hlt, if_false]
    by_cases hhalf : 2 ^ 53 ≤ n / 2
    · obtain ⟨e, he, hlo, hhi⟩ := ih (n / 2) (by omega) hhalf
      refine ⟨e + 1, by rw [he, pow_succ]; ring, ?_, ?_⟩
      · rw [pow_succ]
        have : 2 ^ 52 * (2 ^ e * 2) = 2 * (2 ^ 52 * 2 ^ e) := by ring
        omega
      · rw [pow_succ]
        have : 2 ^ 53 * (2 ^ e * 2) = 2 * (2 ^ 53 * 2 ^ e) := by ring
        omega
    · have h0 : ulp fuel (n / 2) = 1 := by
        cases fuel with
        | zero => rfl
        | succ f =>
          have : n / 2 < 2 ^ 53 := by omega
          simp only [ulp, this, if_true]
      refine ⟨1, by rw [h0]; rfl, ?_, ?_⟩
      · norm_num
        omega
      · norm_num
        omega

theorem toNumber_small (n : Nat) (h : n < 2 ^ 53) : toNumber n = JsNumber.fin n := by
  simp only [toNumber, h, if_true]

theorem toNumber_round (n : Nat) (hn : 2 ^ 53 ≤ n) :
    ∃ e m, 2 ^ 52 * 2 ^ e ≤ n ∧ n < 2 ^ 53 * 2 ^ e ∧
      2 * (n - m * 2 ^ e) ≤ 2 ^ e ∧ 2 * (m * 2 ^ e - n) ≤ 2 ^ e ∧
      (2 * (n - m * 2 ^ e) = 2 ^ e ∨ 2 * (m * 2 ^ e - n) = 2 ^ e → m % 2 = 0) ∧
      toNumber n = if m * 2 ^ e < 2 ^ 1024 then JsNumber.fin (m * 2 ^ e) else JsNumber.inf := by
  obtain ⟨e, he, hlo, hhi⟩ := ulp_spec n n le_rfl hn
  have hp : 0 < 2 ^ e := Nat.pow_pos (by norm_num)
  have hdm : 2 ^ e * (n / 2 ^ e) + n % 2 ^ e = n := Nat.div_add_mod n (2 ^ e)
  have hr : n % 2 ^ e < 2 ^ e := Nat.mod_lt _ hp
  have hlt : ¬ n < 2 ^ 53 := by omega
  by_cases hup : 2 ^ e < 2 * (n % 2 ^ e) ∨ (2 * (n % 2 ^ e) = 2 ^ e ∧ n / 2 ^ e % 2 = 1)
  · refine ⟨e, n / 2 ^ e + 1, hlo, hhi, ?_, ?_, ?_, ?_⟩
    · have : (n / 2 ^ e + 1) * 2 ^ e = 2 ^ e * (n / 2 ^ e) + 2 ^ e := by ring
      omega
    · have : (n / 2 ^ e + 1) * 2 ^ e = 2 ^ e * (n / 2 ^ e) + 2 ^ e := by ring
      omega
    · have : (n / 2 ^ e + 1) * 2 ^ e = 2 ^ e * (n / 2 ^ e) + 2 ^ e := by ring
      omega
    · simp only [toNumber, hlt, if_false, he, hup, if_true]
  · refine ⟨e, n / 2 ^ e, hlo, hhi, ?_, ?_, ?_, ?_⟩
    · have : n / 2 ^ e * 2 ^ e = 2 ^ e * (n / 2 ^ e) := by ring
      omega
    · have : n / 2 ^ e * 2 ^ e = 2 ^ e * (n / 2 ^ e) := by ring
      omega
    · have : n / 2 ^ e * 2 ^ e = 2 ^ e * (n / 2 ^ e) := by ring
      omega
    · simp only [toNumber, hlt, if_false, he, hup]

theorem parseInt_eq_ofDigits (ds : List Char) :
    parseInt ds = Nat.ofDigits 10 ((ds.map fun c => c.toNat - 48).reverse) := by
  have h : ∀ (l : List Char) (acc : Nat),
      l.foldl (fun acc c => 10 * acc + (c.toNat - 48)) acc =
        Nat.ofDigits 10 ((l.map fun c => c.toNat - 48).reverse) + 10 ^ l.length * acc := by
    intro l
    induction l with
    | nil => intro acc; simp
    | cons c l ih =>
      intro acc
      rw [List.foldl_cons, ih, List.map_cons, List.reverse_cons, Nat.ofDigits_append,
        Nat.ofDigits_singleton]
      simp only [List.length_reverse, List.length_map, List.length_cons]
      ring
  have := h ds 0
  simpa [parseInt] using this

theorem compareEditions_le_iff (a b : Edition) :
    compareEditions a b ≤ 0 ↔ JsNumber.le b.id a.id = true := by
  unfold compareEditions
  cases ha : a.id <;> cases hb : b.id <;> simp [JsNumber.le]

theorem JsNumber.le_iff (a b : JsNumber) :
    JsNumber.le a b = true ↔
      (a = JsNumber.inf → b = JsNumber.inf) ∧
      ∀ x y, b = JsNumber.fin x → a = JsNumber.fin y → y ≤ x := by
  cases a <;> cases b <;> simp [JsNumber.le]

theorem JsNumber.le_refl (a : JsNumber) : JsNumber.le a a = true := by
  cases a <;> simp [JsNumber.le]

theorem JsNumber.le_total (a b : JsNumber) :
    JsNumber.le a b = true ∨ JsNumber.le b a = true := by
  cases a <;> cases b <;> simp [JsNumber.le]
  omega

theorem JsNumber.le_trans (a b c : JsNumber) (hab : JsNumber.le a b = true)
    (hbc : JsNumber.le b c = true) : JsNumber.le a c = true := by
  cases a <;> cases b <;> cases c <;> simp [JsNumber.le] at *
  omega

/-! ## Lemmas about the patterns -/

theorem searchFrom_iff (m : List Char → Bool) (s : List Char) :
    searchFrom m s = true ↔ ∃ pre suf, s = pre ++ suf ∧ m suf = true := by
  induction s with
  | nil =>
    constructor
    · intro h
      exact ⟨[], [], rfl, h⟩
    · rintro ⟨pre, suf, hs, hm⟩
      have hsuf : suf = [] := (List.append_eq_nil.mp hs.symm).2
      simpa [searchFrom, hsuf] using hm
  | cons c cs ih =>
    simp only [searchFrom, Bool.or_eq_true]
    constructor
    · rintro (h | h)
      · exact ⟨[], c :: cs, rfl, h⟩
      · obtain ⟨pre, suf, hs, hm⟩ := ih.mp h
        exact ⟨c :: pre, suf, by rw [hs]; rfl, hm⟩
    · rintro ⟨pre, suf, hs, hm⟩
      cases pre with
      | nil =>
        left
        rw [List.nil_append] at hs
        rw [hs]
        exact hm
      | cons p pre =>
        right
        rw [List.cons_append] at hs
        injection hs with _ hcs
        exact ih.mpr ⟨pre, suf, hcs, hm⟩

theorem matchLit_iff (ps s r : List Char) :
    matchLit ps s = some r ↔ ∃ w, s = w ++ r ∧ w.map Char.toLower = ps := by
  induction ps generalizing s with
  | nil =>
    simp only [matchLit, Option.some.injEq]
    constructor
    · intro h
      exact ⟨[], by simp [h], rfl⟩
    · rintro ⟨w, hs, hw⟩
      have : w = [] := by simpa using hw
      simp [hs, this]
  | cons p ps ih =>
    cases s with
    | nil =>
      simp only [matchLit]
      constructor
      · intro h
        cases h
      · rintro ⟨w, hs, hw⟩
        have hw' : w = [] := (List.append_eq_nil.mp hs.symm).1
        rw [hw'] at hw
        cases hw
    | cons c cs =>
      simp only [matchLit, matchChar]
      constructor
      · intro h
        by_cases hc : (c.toLower == p) = true
        · rw [if_pos hc] at h
          obtain ⟨w, hs, hw⟩ := (ih cs).mp h
          refine ⟨c :: w, by rw [hs]; rfl, ?_⟩
          have : c.toLower = p := by simpa using hc
          simp [hw, this]
        · rw [if_neg hc] at h
          cases h
      · rintro ⟨w, hs, hw⟩
        cases w with
        | nil => cases hw
        | cons x w =>
          rw [List.cons_append] at hs
          injection hs with hx hcs
          rw [List.map_cons] at hw
          injection hw with hxp hwp
          have hc : (c.toLower == p) = true := by simp [hx, hxp]
          rw [if_pos hc]
          exact (ih cs).mpr ⟨w, hcs, hwp⟩

theorem testPdf_iff (n : String) : testPdf n = true ↔ EndsInPdf n := by
  unfold testPdf EndsInPdf
  rw [searchFrom_iff]
  constructor
  · rintro ⟨pre, suf, hs, hm⟩
    have hm' : matchLit ['.', 'p', 'd', 'f'] suf = some [] := by simpa [pdfAt] using hm
    obtain ⟨w, hw, hmap⟩ := (matchLit_iff _ _ _).mp hm'
    exact ⟨pre, suf, hs, by rw [hw, List.append_nil]; exact hmap⟩
  · rintro ⟨pre, ext, hs, hext⟩
    refine ⟨pre, ext, hs, ?_⟩
    have : matchLit ['.', 'p', 'd', 'f'] ext = some [] :=
      (matchLit_iff _ _ _).mpr ⟨ext, by simp, hext⟩
    simp [pdfAt, this]

theorem dropWhile_space_four (rest : List Char) :
    (rest.dropWhile isSpace).head? = some '4' ↔
      ∃ ws post, rest = ws ++ '4' :: post ∧ ∀ c ∈ ws, isSpace c = true := by
  induction rest with
  | nil =>
    constructor
    · intro h
      cases h
    · rintro ⟨ws, post, hs, _⟩
      cases ws <;> cases hs
  | cons c cs ih =>
    by_cases hc : isSpace c = true
    · rw [List.dropWhile_cons, if_pos hc, ih]
      constructor
      · rintro ⟨ws, post, hs, hws⟩
        refine ⟨c :: ws, post, by rw [hs]; rfl, ?_⟩
        intro d hd
        rcases List.mem_cons.mp hd with rfl | hd
        · exact hc
        · exact hws d hd
      · rintro ⟨ws, post, hs, hws⟩
        cases ws with
        | nil =>
          rw [List.nil_append] at hs
          injection hs with h4 _
          rw [h4] at hc
          exact absurd hc (by decide)
        | cons x ws =>
          rw [List.cons_append] at hs
          injection hs with _ hcs
          exact ⟨ws, post, hcs, fun d hd => hws d (List.mem_cons_of_mem _ hd)⟩
    · rw [List.dropWhile_cons, if_neg hc]
      constructor
      · intro h
        have h4 : c = '4' := by simpa using h
        exact ⟨[], cs, by rw [h4]; rfl, by simp⟩
      · rintro ⟨ws, post, hs, hws⟩
        cases ws with
        | nil =>
          rw [List.nil_append] at hs
          injection hs with h4 _
          simp [h4]
        | cons x ws =>
          rw [List.cons_append] at hs
          injection hs with hx _
          exact absurd (hx ▸ hws x (List.mem_cons_self _ _)) hc

theorem testEdition4_iff (n : String) : testEdition4 n = true ↔ MatchesExclusion n := by
  unfold testEdition4 MatchesExclusion
  rw [searchFrom_iff]
  constructor
  · rintro ⟨pre, suf, hs, hm⟩
    unfold edition4At at hm
    cases hlit : matchLit ['e', 'd', 'i', 't', 'i', 'o', 'n'] suf with
    | none => rw [hlit] at hm; cases hm
    | some rest =>
      rw [hlit] at hm
      obtain ⟨w, hw, hmap⟩ := (matchLit_iff _ _ _).mp hlit
      have h4 : (rest.dropWhile isSpace).head? = some '4' := by simpa using hm
      obtain ⟨ws, post, hrest, hws⟩ := (dropWhile_space_four rest).mp h4
      exact ⟨pre, w, ws, post, by rw [hs, hw, hrest]; simp, hmap, hws⟩
  · rintro ⟨pre, word, ws, post, hs, hword, hws⟩
    refine ⟨pre, word ++ (ws ++ '4' :: post), by rw [hs]; simp, ?_⟩
    have hlit : matchLit ['e', 'd', 'i', 't', 'i', 'o', 'n'] (word ++ (ws ++ '4' :: post)) =
        some (ws ++ '4' :: post) := (matchLit_iff _ _ _).mpr ⟨word, rfl, hword⟩
    have h4 := (dropWhile_space_four (ws ++ '4' :: post)).mpr ⟨ws, post, rfl, hws⟩
    unfold edition4At
    rw [hlit]
    simp [h4]

/-! ## Lemmas about the cover cache -/

theorem mapGet_mapSet_self (m : List (String × String)) (k v : String) :
    mapGet (mapSet m k v) k = some v := by
  induction m with
  | nil => simp [mapSet, mapGet]
  | cons kv m ih =>
    obtain ⟨k', v'⟩ := kv
    by_cases hk : k' = k
    · simp [mapSet, mapGet, hk]
    · simp [mapSet, mapGet, hk, ih]

theorem cachedCover_none_of_holds (items : List (String × String)) (key s : String)
    (hmiss : cachedCover (some items) key = none) (hs : mapGet items key = some s) :
    s = "" := by
  unfold cachedCover at hmiss
  simp only [hs] at hmiss
  by_contra hne
  simp [hne] at hmiss

theorem renderCount_coverFinish (doc : Pdf)
    (quotaOk : List (String × String) → String → String → Bool)
    (w : World) (path path' : String) (t : ℚ) :
    renderCount (coverFinish doc quotaOk w path' t).1 path = renderCount w path := by
  unfold coverFinish renderCount
  cases doc with
  | openFails => rfl
  | pageFails => simp [List.count_append, List.count_cons]
  | page width raster destroyOk =>
    simp only
    cases raster (renderScale t width) <;> simp [List.count_append, List.count_cons]

theorem mapGet_mapSet_ne (m : List (String × String)) (k k' v : String) (hk : k ≠ k') :
    mapGet (mapSet m k v) k' = mapGet m k' := by
  induction m with
  | nil => simp [mapSet, mapGet, hk]
  | cons kv m ih =>
    obtain ⟨k₀, v₀⟩ := kv
    by_cases h₀ : k₀ = k
    · have : ¬ k₀ = k' := fun h => hk (h₀ ▸ h)
      simp [mapSet, mapGet, h₀, h₀ ▸ this, hk]
    · by_cases h₁ : k₀ = k'
      · subst h₁
        simp [mapSet, mapGet, h₀]
      · simp [mapSet, mapGet, h₀, h₁, ih]

theorem coverStart_miss (w : World) (path : String)
    (hmem : mapGet w.coverCache path = none)
    (hdur : cachedCover w.localStorage (cacheKey path) = none) :
    coverStart w path = ({ w with pdfLog := w.pdfLog ++ [PdfCall.getDocument path] }, none) := by
  simp [coverStart, hmem, hdur]

theorem cover_after_success (doc : Pdf)
    (quotaOk : List (String × String) → String → String → Bool)
    (w w' : World) (path img : String) (t : ℚ)
    (h : renderFirstPageCover doc quotaOk w path t = (w', Except.ok img)) :
    mapGet w'.coverCache path = some img := by
  unfold renderFirstPageCover coverStart at h
  cases hmem : mapGet w.coverCache path with
  | some i =>
    simp only [hmem, coverResume] at h
    injection h with hw hi
    injection hi with hi
    rw [← hw, ← hi]
    exact hmem
  | none =>
    simp only [hmem] at h
    cases hdur : cachedCover w.localStorage (cacheKey path) with
    | some c =>
      simp only [hdur, coverResume] at h
      injection h with hw hi
      injection hi with hi
      rw [← hw, ← hi]
      exact mapGet_mapSet_self _ _ _
    | none =>
      simp only [hdur, coverResume, coverFinish] at h
      cases doc with
      | openFails => simp at h
      | pageFails => simp at h
      | page width raster destroyOk =>
        simp only at h
        cases hr : raster (renderScale t width) with
        | renderFails => simp [hr] at h
        | encodeFails => simp [hr] at h
        | image s =>
          simp only [hr] at h
          injection h with hw hi
          injection hi with hi
          rw [← hw, ← hi]
          exact mapGet_mapSet_self _ _ _

theorem jsLength_replicate (n : Nat) : jsLength (String.mk (List.replicate n 'a')) = n := by
  unfold jsLength
  induction n with
  | zero => rfl
  | succ n ih =>
    have ha : ('a'.toNat < 0x10000) = True := by decide
    simp only [List.replicate_succ, List.map_cons, List.sum_cons, ha, if_true]
    simp only [ha, if_true] at ih
    omega

theorem cover_memory_hit (doc : Pdf)
    (quotaOk : List (String × String) → String → String → Bool)
    (w : World) (path img : String) (t : ℚ) (h : mapGet w.coverCache path = some img) :
    renderFirstPageCover doc quotaOk w path t = (w, Except.ok img) := by
  simp [renderFirstPageCover, coverStart, h, coverResume]

theorem step_keeps_entry (w : World) (path img : String) (s : Step)
    (hent : mapGet w.coverCache path = some img) (hs : Step.finishes path s = false) :
    mapGet (Step.run w s).coverCache path = some img ∧
      renderCount (Step.run w s) path = renderCount w path := by
  cases s with
  | start p =>
    by_cases hp : p = path
    · subst hp
      simp [Step.run, coverStart, hent]
    · simp only [Step.run, coverStart]
      cases hmem : mapGet w.coverCache p with
      | some i => exact ⟨hent, rfl⟩
      | none =>
        cases hdur : cachedCover w.localStorage (cacheKey p) with
        | some c =>
          refine ⟨?_, rfl⟩
          simp only
          rw [mapGet_mapSet_ne _ _ _ _ hp]
          exact hent
        | none =>
          refine ⟨hent, ?_⟩
          have hne : PdfCall.getDocument p ≠ PdfCall.getDocument path := by
            intro h
            injection h with h
            exact hp h
          simp [renderCount, List.count_append, List.count_cons, hne]
  | finish doc quotaOk p t =>
    have hp : p ≠ path := by
      intro h
      simp [Step.finishes, h] at hs
    refine ⟨?_, renderCount_coverFinish doc quotaOk w path p t⟩
    simp only [Step.run, coverFinish]
    cases doc with
    | openFails => exact hent
    | pageFails => exact hent
    | page width raster destroyOk =>
      simp only
      cases raster (renderScale t width) with
      | renderFails => exact hent
      | encodeFails => exact hent
      | image dataUrl =>
        simp only
        rw [mapGet_mapSet_ne _ _ _ _ hp]
        exact hent

theorem runSteps_keeps_entry (steps : List Step) (w : World) (path img : String)
    (hent : mapGet w.coverCache path = some img)
    (hs : ∀ s ∈ steps, Step.finishes path s = false) :
    mapGet (runSteps w steps).coverCache path = some img ∧
      renderCount (runSteps w steps) path = renderCount w path := by
  induction steps generalizing w with
  | nil => exact ⟨hent, rfl⟩
  | cons s steps ih =>
    have h₁ := step_keeps_entry w path img s hent (hs s (List.mem_cons_self _ _))
    have h₂ := ih (Step.run w s) h₁.1 fun s' hs' => hs s' (List.mem_cons_of_mem _ hs')
    exact ⟨h₂.1, h₂.2.trans h₁.2⟩

theorem editions_example :
    (editions ["Edition 5.pdf", "a7.pdf", "Edition 7_.pdf", "cover.pdf", "Edition 9 (1).pdf"]).map
        (fun e => (e.id, e.file)) =
      [(JsNumber.fin 9, "Edition 9 (1).pdf"), (JsNumber.fin 7, "a7.pdf"),
       (JsNumber.fin 7, "Edition 7_.pdf"), (JsNumber.fin 5, "Edition 5.pdf"),
       (JsNumber.fin 0, "cover.pdf")] := by
  decide

theorem title_examples :
    (mkEdition "Edition 9.pdf").title = "Transylvania Insights — Edition 9" ∧
    (mkEdition "Edition 1152921504606846976.pdf").title =
      "Transylvania Insights — Edition 1152921504606847000" ∧
    (mkEdition "Edition 1000000000000000000000.pdf").title =
      "Transylvania Insights — Edition 1e+21" ∧
    (mkEdition "Edition 1180591620717411303424.pdf").title =
      "Transylvania Insights — Edition 1.1805916207174113e+21" ∧
    (mkEdition (String.mk (List.replicate 400 '9'))).title =
      "Transylvania Insights — Edition Infinity" := by
  decide!

/-! ## Theorems -/

/-- C1 as stated fails: the id is a Number. The digits of
`Edition 9007199254740993.pdf` give 9007199254740993, the id is
9007199254740992 and the title shows that number; a run of 400 nines gives the
id `Infinity`. -/
theorem edition_id_rounds :
    parseInt (firstDigits "Edition 9007199254740993.pdf".data) = 9007199254740993 ∧
    mkEdition "Edition 9007199254740993.pdf" =
      { id := JsNumber.fin 9007199254740992, file := "Edition 9007199254740993.pdf",
        title := "Transylvania Insights — Edition 9007199254740992" } ∧
    (mkEdition "Edition 9007199254740993.pdf").id ≠ JsNumber.fin 9007199254740993 ∧
    (mkEdition (String.mk (List.replicate 400 '9'))).id = JsNumber.inf := by
  decide!

/-- C1, amended: for every list of discovered filenames the edition list is a
permutation of the mapped input, its files are a permutation of the input
files, ids are in descending order (`Infinity` first), and the editions of any
one id keep the order their files had in the input. The id is 0 for a name
without digits and otherwise the Number for the integer written by the first
run of digits: that integer itself below `2^53`, and from `2^53` on the
nearest multiple `m * 2^e` of the spacing `2^e` of the doubles around it
(`2^(52+e) ≤ n < 2^(53+e)`), the even `m` at a tie, `Infinity` when
`m * 2^e` reaches `2^1024`. -/
theorem editions_sorted_stable (files : List String) :
    (editions files).Perm (files.map mkEdition) ∧
    ((editions files).map Edition.file).Perm files ∧
    (editions files).Pairwise (fun a b =>
      (b.id = JsNumber.inf → a.id = JsNumber.inf) ∧
      ∀ x y, a.id = JsNumber.fin x → b.id = JsNumber.fin y → y ≤ x) ∧
    (∀ k, (editions files).filter (fun e => e.id == k) =
      (files.map mkEdition).filter (fun e => e.id == k)) ∧
    (∀ fn ∈ files, (mkEdition fn).file = fn ∧ (mkEdition fn).id = editionId fn) ∧
    (∀ fn : String, (∀ c ∈ fn.data, isDigit c = false) → editionId fn = JsNumber.fin 0) ∧
    (∀ (fn : String) (pre ds post : List Char), fn.data = pre ++ ds ++ post →
      (∀ c ∈ pre, isDigit c = false) → (∀ c ∈ ds, isDigit c = true) → ds ≠ [] →
      (∀ c, post.head? = some c → isDigit c = false) →
      editionId fn = toNumber (Nat.ofDigits 10 ((ds.map fun c => c.toNat - 48).reverse))) ∧
    (∀ n, n < 2 ^ 53 → toNumber n = JsNumber.fin n) ∧
    (∀ n, 2 ^ 53 ≤ n → ∃ e m, 2 ^ 52 * 2 ^ e ≤ n ∧ n < 2 ^ 53 * 2 ^ e ∧
      2 * (n - m * 2 ^ e) ≤ 2 ^ e ∧ 2 * (m * 2 ^ e - n) ≤ 2 ^ e ∧
      (2 * (n - m * 2 ^ e) = 2 ^ e ∨ 2 * (m * 2 ^ e - n) = 2 ^ e → m % 2 = 0) ∧
      toNumber n = if m * 2 ^ e < 2 ^ 1024 then JsNumber.fin (m * 2 ^ e) else JsNumber.inf) := by
  have hperm : (editions files).Perm (files.map mkEdition) :=
    List.perm_insertionSort _ _
  refine ⟨hperm, ?_, ?_, ?_, ?_, ?_, ?_, toNumber_small, toNumber_round⟩
  · have h := hperm.map Edition.file
    simpa [List.map_map, Function.comp_def, mkEdition] using h
  · have hs : (editions files).Sorted (fun a b => compareEditions a b ≤ 0) := by
      haveI : IsTotal Edition (fun a b => compareEditions a b ≤ 0) :=
        ⟨fun a b => by
          rw [compareEditions_le_iff, compareEditions_le_iff]
          exact JsNumber.le_total b.id a.id⟩
      haveI : IsTrans Edition (fun a b => compareEditions a b ≤ 0) :=
        ⟨fun a b c hab hbc => by
          rw [compareEditions_le_iff] at *
          exact JsNumber.le_trans _ _ _ hbc hab⟩
      exact List.sorted_insertionSort _ _
    exact List.Pairwise.imp
      (fun {a b} h => (JsNumber.le_iff b.id a.id).mp ((compareEditions_le_iff a b).mp h)) hs
  · intro k
    apply filter_insertionSort
    intro a b ha hb
    have ha' : a.id = k := by simpa using ha
    have hb' : b.id = k := by simpa using hb
    rw [compareEditions_le_iff, ha', hb']
    exact JsNumber.le_refl k
  · intro fn _
    exact ⟨rfl, rfl⟩
  · intro fn h
    unfold editionId
    rw [firstDigits_none _ h]
  · intro fn pre ds post hfn hpre hds hne hpost
    unfold editionId
    rw [hfn, firstDigits_run pre ds post hpre hds hne hpost, ← parseInt_eq_ofDigits]
    cases ds with
    | nil => exact absurd rfl hne
    | cons d ds => rfl

/-- Witness for C1 (amended): the number 9007199254740995 lies halfway between
two doubles and is read as the even one. -/
theorem editions_sorted_stable_witness :
    ∃ e m, 2 ^ 52 * 2 ^ e ≤ 9007199254740995 ∧ 9007199254740995 < 2 ^ 53 * 2 ^ e ∧
      2 * (9007199254740995 - m * 2 ^ e) ≤ 2 ^ e ∧ 2 * (m * 2 ^ e - 9007199254740995) ≤ 2 ^ e ∧
      (2 * (9007199254740995 - m * 2 ^ e) = 2 ^ e ∨ 2 * (m * 2 ^ e - 9007199254740995) = 2 ^ e →
        m % 2 = 0) ∧
      toNumber 9007199254740995 =
        if m * 2 ^ e < 2 ^ 1024 then JsNumber.fin (m * 2 ^ e) else JsNumber.inf :=
  (editions_sorted_stable []).2.2.2.2.2.2.2.2 9007199254740995 (by norm_num)

/-- C8: for positive page width `w` and positive target width `t` the render
scale lies in `[0.12, 3]`, equals `t / w` whenever `t / w` lies in that range,
is `0.12` below it and `3` above it; width 1 and target 1200 give scale 3. -/
theorem renderScale_clamped (t w : ℚ) (hw : 0 < w) (ht : 0 < t) :
    3 / 25 ≤ renderScale t w ∧ renderScale t w ≤ 3 ∧
    (3 / 25 ≤ t / w → t / w ≤ 3 → renderScale t w = t / w) ∧
    (t / w < 3 / 25 → renderScale t w = 3 / 25) ∧
    (3 < t / w → renderScale t w = 3) ∧
    renderScale 1200 1 = 3 := by
  have _hq : 0 < t / w := div_pos ht hw
  unfold renderScale
  refine ⟨le_max_left _ _, max_le (by norm_num) (min_le_left _ _), ?_, ?_, ?_, ?_⟩
  · intro h1 h2
    rw [min_eq_right h2, max_eq_right h1]
  · intro h
    rw [min_eq_right (by linarith), max_eq_left h.le]
  · intro h
    rw [min_eq_left h.le]
    norm_num
  · norm_num

/-- Witness for C8 at target width 1200 and page width 600. -/
theorem renderScale_clamped_witness :
    (0 : ℚ) < 600 ∧ (0 : ℚ) < 1200 ∧ renderScale 1200 600 = 1200 / 600 :=
  ⟨by norm_num, by norm_num,
    (renderScale_clamped 1200 600 (by norm_num) (by norm_num)).2.2.1
      (by norm_num) (by norm_num)⟩


theorem resolveFrom_eq_find (h : Host) (vs : List String) :
    resolveFrom h vs = vs.find? fun v => h.head (docPath v) || h.range (docPath v) := by
  induction vs with
  | nil => rfl
  | cons v vs ih =>
    simp only [resolveFrom, «exists», List.find?_cons]
    by_cases hh : h.head (docPath v) = true <;> by_cases hr : h.range (docPath v) = true <;>
      simp [hh, hr, ih]

theorem resolveFrom_mem (h : Host) (vs : List String) (v : String)
    (hv : resolveFrom h vs = some v) : v ∈ vs := by
  rw [resolveFrom_eq_find] at hv
  exact List.mem_of_find?_eq_some hv

theorem probe_eq_filterMap (h : Host) (ns : List Nat)
    (hok : ∀ n ∈ ns, ∀ v ∈ variants n, (v != "" && !testEdition4 v) = true) :
    probe h ns = ns.filterMap (resolveEditionFile h) := by
  induction ns with
  | nil => rfl
  | cons n ns ih =>
    have ih' := ih fun m hm => hok m (List.mem_cons_of_mem _ hm)
    cases hr : resolveEditionFile h n with
    | none => simp [probe, hr, ih', List.filterMap_cons]
    | some v =>
      have hv : v ∈ variants n := resolveFrom_mem h _ v hr
      have := hok n (List.mem_cons_self _ _) v hv
      simp only [probe, hr, this, if_true, ih', List.filterMap_cons]

theorem candidates_pass_filter :
    ∀ n ∈ nums, ∀ v ∈ variants n, (v != "" && !testEdition4 v) = true := by
  decide

theorem candidates_id :
    ∀ n ∈ nums, ∀ v ∈ variants n, editionId v = JsNumber.fin n := by
  decide

theorem map_filterMap_sublist {β : Type} (f : Nat → Option String) (g : String → β)
    (c : Nat → β) (ns : List Nat)
    (hfg : ∀ n ∈ ns, ∀ v, f n = some v → g v = c n) :
    ((ns.filterMap f).map g).Sublist (ns.map c) := by
  induction ns with
  | nil => simp
  | cons n ns ih =>
    have ih' := ih fun m hm => hfg m (List.mem_cons_of_mem _ hm)
    cases hf : f n with
    | none =>
      rw [List.filterMap_cons, hf, List.map_cons]
      exact List.Sublist.cons _ ih'
    | some v =>
      rw [List.filterMap_cons, hf, List.map_cons, List.map_cons,
        hfg n (List.mem_cons_self _ _) v hf]
      exact List.Sublist.cons₂ _ ih'

/-- C2 as stated fails: when the effect has been cleaned up before line 200
reads `alive`, a usable manifest is not stored; `files` stays empty and
`discovered` stays `false`. -/
theorem manifest_not_stored_after_cleanup :
    (discover (some (Json.arr [Json.str "Edition 9.pdf"]))
      ⟨fun p => p == docPath "Edition 5.pdf", fun _ => false⟩ false false).files = [] ∧
    (discover (some (Json.arr [Json.str "Edition 9.pdf"]))
      ⟨fun p => p == docPath "Edition 5.pdf", fun _ => false⟩ false false).discovered = false := by
  decide

/-- C2, amended: for a manifest that is an array of strings with at least one
entry surviving the filter, an effect that is still alive at line 200 stores
exactly the surviving entries (manifest order, duplicates kept), sets
`discovered`, and sends no probe; an effect cleaned up by then stores neither
files nor `discovered`. An entry survives when it ends in `.pdf` (case
ignored) and does not match the exclusion pattern. The manifest
`["Edition 9.pdf", "Edition 4.pdf", "notes.txt"]` yields `["Edition 9.pdf"]`. -/
theorem manifest_discovery (names : List String) (h : Host) (alive₁ alive₂ : Bool)
    (hne : names.filter (fun n => testPdf n && !testEdition4 n) ≠ []) :
    (alive₁ = true → discover (some (Json.arr (names.map Json.str))) h alive₁ alive₂ =
      { files := names.filter (fun n => testPdf n && !testEdition4 n),
        discovered := true, probes := [] }) ∧
    (alive₁ = false →
      (discover (some (Json.arr (names.map Json.str))) h alive₁ alive₂).files = [] ∧
      (discover (some (Json.arr (names.map Json.str))) h alive₁ alive₂).discovered = false) ∧
    (∀ n, (testPdf n && !testEdition4 n) = true ↔ EndsInPdf n ∧ ¬ MatchesExclusion n) ∧
    discover (some (Json.arr [Json.str "Edition 9.pdf", Json.str "Edition 4.pdf",
        Json.str "notes.txt"])) h true alive₂ =
      { files := ["Edition 9.pdf"], discovered := true, probes := [] } := by
  have hnames : ∀ l : List String, manifestNames (Json.arr (l.map Json.str)) =
      l.filter (fun n => testPdf n && !testEdition4 n) := by
    intro l
    simp only [manifestNames]
    induction l with
    | nil => rfl
    | cons n l ih =>
      simp only [List.map_cons, List.filterMap_cons, List.filter_cons]
      rw [ih]
      cases hp : (testPdf n && !testEdition4 n) <;> simp
  refine ⟨?_, ?_, ?_, ?_⟩
  · intro ha
    unfold discover
    simp only [hnames]
    have : (names.filter (fun n => testPdf n && !testEdition4 n)).isEmpty = false := by
      cases hl : names.filter (fun n => testPdf n && !testEdition4 n) with
      | nil => exact absurd hl hne
      | cons _ _ => rfl
    simp [this, ha]
  · intro ha
    unfold discover
    simp [ha]
  · intro n
    rw [Bool.and_eq_true, testPdf_iff, Bool.not_eq_true', ← Bool.not_eq_true, testEdition4_iff]
  · have h3 := hnames ["Edition 9.pdf", "Edition 4.pdf", "notes.txt"]
    simp only [List.map_cons, List.map_nil] at h3
    unfold discover
    simp only [h3]
    have : (["Edition 9.pdf", "Edition 4.pdf", "notes.txt"].filter
        (fun n => testPdf n && !testEdition4 n)) = ["Edition 9.pdf"] := by decide
    rw [this]
    rfl

/-- Witness for C2 (amended) at the manifest
`["Edition 9.pdf", "Edition 4.pdf", "notes.txt"]`, a host without any file, and
an effect that stays alive. -/
theorem manifest_discovery_witness :
    discover (some (Json.arr (["Edition 9.pdf", "Edition 4.pdf", "notes.txt"].map Json.str)))
        ⟨fun _ => false, fun _ => false⟩ true true =
      { files := ["Edition 9.pdf", "Edition 4.pdf", "notes.txt"].filter
          (fun n => testPdf n && !testEdition4 n),
        discovered := true, probes := [] } :=
  (manifest_discovery ["Edition 9.pdf", "Edition 4.pdf", "notes.txt"]
    ⟨fun _ => false, fun _ => false⟩ true true (by decide)).1 rfl

/-- C3 as stated fails: when the effect is cleaned up while probing, line 209
stores nothing; `discovered` stays `false` although probing has found
`Edition 5.pdf`. -/
theorem probing_not_stored_after_cleanup :
    probe ⟨fun p => p == docPath "Edition 5.pdf", fun _ => false⟩ nums = ["Edition 5.pdf"] ∧
    (discover none ⟨fun p => p == docPath "Edition 5.pdf", fun _ => false⟩ true false).discovered
      = false ∧
    (discover none ⟨fun p => p == docPath "Edition 5.pdf", fun _ => false⟩ true false).files
      = [] := by
  decide

/-- C3, amended: when the manifest yields no name, the probing loop finds, for
the candidates 9, 8, 7, 6, 5, 3 in that order, the first variant the host
reports (by `HEAD` or by the ranged fallback), skipping candidates without one;
the ids of the found files form a sub-sequence of 9, 8, 7, 6, 5, 3. An effect
that is still alive at line 209 stores the found list and sets `discovered`,
also when the list is empty; an effect cleaned up by then stores neither. A
host holding only `Edition 7_.pdf` and `Edition 5.pdf` yields editions with
ids 7 then 5. -/
theorem probing_discovery (manifest : Option Json) (h : Host) (alive₁ alive₂ : Bool)
    (hm : ∀ d, manifest = some d → manifestNames d = []) :
    probe h nums =
      [9, 8, 7, 6, 5, 3].filterMap (fun n =>
        (variants n).find? fun v => h.head (docPath v) || h.range (docPath v)) ∧
    ((probe h nums).map editionId).Sublist
      [JsNumber.fin 9, JsNumber.fin 8, JsNumber.fin 7, JsNumber.fin 6, JsNumber.fin 5,
       JsNumber.fin 3] ∧
    (alive₁ = true → alive₂ = true →
      (discover manifest h alive₁ alive₂).files = probe h nums ∧
      (discover manifest h alive₁ alive₂).discovered = true) ∧
    (alive₁ = false ∨ alive₂ = false →
      (discover manifest h alive₁ alive₂).files = [] ∧
      (discover manifest h alive₁ alive₂).discovered = false) ∧
    ((editions (discover none
        ⟨fun p => p == docPath "Edition 7_.pdf" || p == docPath "Edition 5.pdf",
         fun p => p == docPath "Edition 7_.pdf" || p == docPath "Edition 5.pdf"⟩
        true true).files).map Edition.id) = [JsNumber.fin 7, JsNumber.fin 5] := by
  have hnames : (match manifest with
      | some data => manifestNames data
      | none => []) = [] := by
    cases manifest with
    | none => rfl
    | some d => exact hm d rfl
  have hprobe : probe h nums = nums.filterMap (resolveEditionFile h) :=
    probe_eq_filterMap h nums candidates_pass_filter
  refine ⟨?_, ?_, ?_, ?_, ?_⟩
  · rw [hprobe]
    have : resolveEditionFile h = fun n =>
        (variants n).find? fun v => h.head (docPath v) || h.range (docPath v) := by
      funext n
      exact resolveFrom_eq_find h _
    rw [this]
    rfl
  · rw [hprobe]
    have hsub := map_filterMap_sublist (resolveEditionFile h) editionId JsNumber.fin nums
      fun n hn v hv => candidates_id n hn v (resolveFrom_mem h _ v hv)
    exact hsub
  · intro h₁ h₂
    unfold discover
    simp [hnames, h₁, h₂]
  · intro hcl
    unfold discover
    rcases hcl with h₁ | h₂
    · simp [h₁]
    · simp [hnames, h₂]
  · decide

/-- Witness for C3 (amended) without a manifest on a host where only
`Edition 5.pdf` answers the `HEAD` request. -/
theorem probing_discovery_witness :
    (discover none ⟨fun p => p == docPath "Edition 5.pdf", fun _ => false⟩ true true).discovered
      = true :=
  ((probing_discovery none ⟨fun p => p == docPath "Edition 5.pdf", fun _ => false⟩ true true
    (fun _ hd => by cases hd)).2.2.1 rfl rfl).2

/-- C4: the exclusion test at line 199 and line 207 accepts every spelling of
`edition`, any white space and the number 4, but it also fires on the number 40:
a manifest listing `Edition 40.pdf` and `Edition 9.pdf` loses the former. -/
theorem exclusion_hits_edition_40 :
    testEdition4 "Edition 40.pdf" = true ∧
    (discover (some (Json.arr [Json.str "Edition 40.pdf", Json.str "Edition 9.pdf"]))
      ⟨fun _ => false, fun _ => false⟩ true true).files = ["Edition 9.pdf"] ∧
    (∀ word ws : List Char, word.map Char.toLower = ['e', 'd', 'i', 't', 'i', 'o', 'n'] →
      (∀ c ∈ ws, isSpace c = true) →
      testEdition4 (String.mk (word ++ ws ++ ['4', '.', 'p', 'd', 'f'])) = true) := by
  refine ⟨by decide, by decide, ?_⟩
  intro word ws hword hws
  rw [testEdition4_iff]
  exact ⟨[], word, ws, ['.', 'p', 'd', 'f'], by simp, hword, hws⟩

/-- C10 as stated fails: the form without a space before `(1)` is not among
the variants of 9. -/
theorem variants_zero_space_absent : "Edition 9(1).pdf" ∉ variants 9 := by
  decide

/-- C10, amended: the variants of `N` are, in this order, `Edition N.pdf`,
`Edition N_.pdf`, `Edition N (1).pdf` (one space), `Edition N  (1).pdf` (two
spaces) and `Edition N.PDF`; the base name is first and `resolveEditionFile`
returns it whenever the host reports it. -/
theorem variants_list (n : Nat) (h : Host) :
    variants n =
      ["Edition " ++ toString n ++ ".pdf", "Edition " ++ toString n ++ "_.pdf",
       "Edition " ++ toString n ++ " (1).pdf", "Edition " ++ toString n ++ "  (1).pdf",
       "Edition " ++ toString n ++ ".PDF"] ∧
    (variants n).head? = some ("Edition " ++ toString n ++ ".pdf") ∧
    (h.head (docPath ("Edition " ++ toString n ++ ".pdf")) = true ∨
      h.range (docPath ("Edition " ++ toString n ++ ".pdf")) = true →
      resolveEditionFile h n = some ("Edition " ++ toString n ++ ".pdf")) := by
  refine ⟨rfl, rfl, ?_⟩
  intro hbase
  rw [resolveEditionFile, resolveFrom_eq_find]
  simp only [variants, List.find?_cons]
  have : (h.head (docPath ("Edition " ++ toString n ++ ".pdf")) ||
      h.range (docPath ("Edition " ++ toString n ++ ".pdf"))) = true := by
    simpa using hbase
  simp [this]

/-- Witness for C10 (amended) at `N = 9` on a host where every ranged request
succeeds. -/
theorem variants_list_witness :
    resolveEditionFile ⟨fun _ => false, fun _ => true⟩ 9 = some "Edition 9.pdf" :=
  (variants_list 9 ⟨fun _ => false, fun _ => true⟩).2.2 (Or.inr rfl)

/-- C5 as stated fails. With an empty string stored under `cover::/docs/a.pdf`
and nothing in memory, the call does not return the stored entry; it invokes
the PDF engine and returns the freshly rendered image. And a call that
succeeds with `data:A` while a second render of the same path is in flight is
followed by a call that returns `data:B`. -/
theorem empty_durable_entry_rerenders :
    mapGet [("cover::/docs/a.pdf", "")] (cacheKey "/docs/a.pdf") = some "" ∧
    (renderFirstPageCover (Pdf.page 600 (fun _ => Raster.image "data:image/jpeg;base64,AA==") true)
      (fun _ _ _ => true)
      { coverCache := [], localStorage := some [("cover::/docs/a.pdf", "")], pdfLog := [] }
      "/docs/a.pdf" 1200).2 = Except.ok "data:image/jpeg;base64,AA==" ∧
    renderCount (renderFirstPageCover
      (Pdf.page 600 (fun _ => Raster.image "data:image/jpeg;base64,AA==") true)
      (fun _ _ _ => true)
      { coverCache := [], localStorage := some [("cover::/docs/a.pdf", "")], pdfLog := [] }
      "/docs/a.pdf" 1200).1 "/docs/a.pdf" = 1 ∧
    (overlappingCalls (Pdf.page 600 (fun _ => Raster.image "data:A") true)
      (Pdf.page 600 (fun _ => Raster.image "data:B") true) (fun _ _ _ => true)
      { coverCache := [], localStorage := none, pdfLog := [] } "/docs/a.pdf" 1200).2.1 =
        Except.ok "data:A" ∧
    (renderFirstPageCover Pdf.openFails (fun _ _ _ => true)
      (overlappingCalls (Pdf.page 600 (fun _ => Raster.image "data:A") true)
        (Pdf.page 600 (fun _ => Raster.image "data:B") true) (fun _ _ _ => true)
        { coverCache := [], localStorage := none, pdfLog := [] } "/docs/a.pdf" 1200).1
      "/docs/a.pdf" 1200).2 = Except.ok "data:B" := by
  refine ⟨by decide, rfl, ?_, rfl, rfl⟩
  rfl

/-- C5, amended: a path present in the memory tier is answered with its entry,
the world (both tiers and the engine log) unchanged; a path absent from memory
whose durable entry under `cover::<path>` is a non-empty string is answered
with that entry, no engine call, and memory then maps the path to it; and once
a call for a path has succeeded, then after any sequence of steps of other
calls (heads of calls for any path, ends of renders of other paths; no render
of this path that was still in flight ends in between) every call for the path
returns the same image, calls the engine for it no further time and leaves the
world as it is. -/
theorem cover_cache_hit (doc : Pdf)
    (quotaOk : List (String × String) → String → String → Bool)
    (w : World) (path : String) (t : ℚ) :
    (∀ img, mapGet w.coverCache path = some img →
      renderFirstPageCover doc quotaOk w path t = (w, Except.ok img)) ∧
    (∀ items s, mapGet w.coverCache path = none → w.localStorage = some items →
      mapGet items (cacheKey path) = some s → s ≠ "" →
      renderFirstPageCover doc quotaOk w path t =
        ({ w with coverCache := mapSet w.coverCache path s }, Except.ok s) ∧
      mapGet (mapSet w.coverCache path s) path = some s) ∧
    (∀ w' img, renderFirstPageCover doc quotaOk w path t = (w', Except.ok img) →
      ∀ steps : List Step, (∀ s ∈ steps, Step.finishes path s = false) →
      ∀ (doc' : Pdf) (quotaOk' : List (String × String) → String → String → Bool) (t' : ℚ),
        renderFirstPageCover doc' quotaOk' (runSteps w' steps) path t' =
          (runSteps w' steps, Except.ok img) ∧
        renderCount (runSteps w' steps) path = renderCount w' path) := by
  refine ⟨fun img h => cover_memory_hit doc quotaOk w path img t h, ?_, ?_⟩
  · intro items s hmem hls hitem hne
    refine ⟨?_, mapGet_mapSet_self _ _ _⟩
    have hc : cachedCover w.localStorage (cacheKey path) = some s := by
      simp [cachedCover, hls, hitem, hne]
    simp [renderFirstPageCover, coverStart, hmem, hc, coverResume]
  · intro w' img h steps hsteps doc' quotaOk' t'
    have hkeep := runSteps_keeps_entry steps w' path img
      (cover_after_success doc quotaOk w w' path img t h) hsteps
    exact ⟨cover_memory_hit doc' quotaOk' _ path img t' hkeep.1, hkeep.2⟩

/-- Witness for C5 (amended): a durable hit for `/docs/a.pdf`; and after a
first render of `/docs/a.pdf`, a complete render of `/docs/b.pdf` in between
does not disturb the cached cover. -/
theorem cover_cache_hit_witness :
    renderFirstPageCover Pdf.openFails (fun _ _ _ => true)
      { coverCache := [], localStorage := some [("cover::/docs/a.pdf", "data:,")], pdfLog := [] }
      "/docs/a.pdf" 1200 =
    ({ coverCache := [("/docs/a.pdf", "data:,")],
       localStorage := some [("cover::/docs/a.pdf", "data:,")], pdfLog := [] },
      Except.ok "data:,") ∧
    (renderFirstPageCover Pdf.openFails (fun _ _ _ => true)
      (runSteps
        { coverCache := [("/docs/a.pdf", "data:A")], localStorage := none,
          pdfLog := [PdfCall.getDocument "/docs/a.pdf", PdfCall.getPage "/docs/a.pdf",
            PdfCall.render "/docs/a.pdf" (renderScale 1200 600),
            PdfCall.toDataURL "/docs/a.pdf", PdfCall.destroy "/docs/a.pdf"] }
        [Step.start "/docs/b.pdf",
         Step.finish (Pdf.page 600 (fun _ => Raster.image "data:B") true) (fun _ _ _ => true)
           "/docs/b.pdf" 1200])
      "/docs/a.pdf" 1200).2 = Except.ok "data:A" :=
  ⟨((cover_cache_hit Pdf.openFails (fun _ _ _ => true)
      { coverCache := [], localStorage := some [("cover::/docs/a.pdf", "data:,")], pdfLog := [] }
      "/docs/a.pdf" 1200).2.1 [("cover::/docs/a.pdf", "data:,")] "data:," rfl rfl
      (by decide) (by decide)).1,
    congrArg Prod.snd
      ((cover_cache_hit (Pdf.page 600 (fun _ => Raster.image "data:A") true) (fun _ _ _ => true)
        { coverCache := [], localStorage := none, pdfLog := [] } "/docs/a.pdf" 1200).2.2
        _ "data:A" rfl
        [Step.start "/docs/b.pdf",
         Step.finish (Pdf.page 600 (fun _ => Raster.image "data:B") true) (fun _ _ _ => true)
           "/docs/b.pdf" 1200]
        (by decide) Pdf.openFails (fun _ _ _ => true) 1200).1⟩

/-- C6: for a path that misses both tiers and whose render yields the encoded
image `s`, the call returns `s` and memory maps the path to `s`; when the
durable write does not fail, the durable tier holds `s` under `cover::<path>`
exactly when `s` has fewer than 2,000,000 code units; at or above the
threshold, or when the write throws, the durable tier is unchanged. An image at
or above the threshold is then served from memory without an engine call, and
once memory is cleared the path misses both tiers again. -/
theorem cover_cache_write (quotaOk : List (String × String) → String → String → Bool)
    (w : World) (path : String) (t width : ℚ) (raster : ℚ → Raster) (destroyOk : Bool)
    (s : String)
    (hmem : mapGet w.coverCache path = none)
    (hdur : cachedCover w.localStorage (cacheKey path) = none)
    (hr : raster (renderScale t width) = Raster.image s) :
    (renderFirstPageCover (Pdf.page width raster destroyOk) quotaOk w path t).2 = Except.ok s ∧
    mapGet (renderFirstPageCover (Pdf.page width raster destroyOk) quotaOk w path t).1.coverCache
      path = some s ∧
    (∀ items, w.localStorage = some items → quotaOk items (cacheKey path) s = true →
      ((∃ items', (renderFirstPageCover (Pdf.page width raster destroyOk) quotaOk w path
            t).1.localStorage = some items' ∧ mapGet items' (cacheKey path) = some s) ↔
        jsLength s < 2000000)) ∧
    (2000000 ≤ jsLength s ∨ w.localStorage = none ∨
        (∃ items, w.localStorage = some items ∧ quotaOk items (cacheKey path) s = false) →
      (renderFirstPageCover (Pdf.page width raster destroyOk) quotaOk w path t).1.localStorage =
        w.localStorage) ∧
    (2000000 ≤ jsLength s →
      (∀ (doc' : Pdf) (quotaOk' : List (String × String) → String → String → Bool) (t' : ℚ),
        renderFirstPageCover doc' quotaOk'
          (renderFirstPageCover (Pdf.page width raster destroyOk) quotaOk w path t).1 path t' =
        ((renderFirstPageCover (Pdf.page width raster destroyOk) quotaOk w path t).1,
          Except.ok s)) ∧
      (coverStart { (renderFirstPageCover (Pdf.page width raster destroyOk) quotaOk w path
          t).1 with coverCache := [] } path).2 = none) := by
  have hrun : renderFirstPageCover (Pdf.page width raster destroyOk) quotaOk w path t =
      ({ coverCache := mapSet w.coverCache path s
         localStorage := storeCover quotaOk w.localStorage (cacheKey path) s
         pdfLog := w.pdfLog ++ [PdfCall.getDocument path] ++
          [PdfCall.getPage path, PdfCall.render path (renderScale t width),
           PdfCall.toDataURL path, PdfCall.destroy path] },
        Except.ok s) := by
    simp [renderFirstPageCover, coverStart_miss w path hmem hdur, coverResume, coverFinish, hr]
  rw [hrun]
  refine ⟨rfl, mapGet_mapSet_self _ _ _, ?_, ?_, ?_⟩
  · intro items hls hq
    simp only [storeCover, hls, hq, if_true]
    constructor
    · rintro ⟨items', hst, hget⟩
      by_contra hlen
      rw [if_neg hlen] at hst
      injection hst with hst
      rw [← hst] at hget
      have hempty : s = "" := cachedCover_none_of_holds items _ s (hls ▸ hdur) hget
      rw [hempty] at hlen
      exact hlen (by decide)
    · intro hlen
      rw [if_pos hlen]
      exact ⟨_, rfl, mapGet_mapSet_self _ _ _⟩
  · rintro (hlen | hnone | ⟨items, hls, hq⟩)
    · simp [storeCover, Nat.not_lt.mpr hlen]
    · simp only [storeCover, hnone]
      split <;> rfl
    · simp only [storeCover, hls, hq]
      split <;> simp
  · intro hlen
    refine ⟨fun doc' quotaOk' t' => cover_memory_hit doc' quotaOk' _ path s t'
      (mapGet_mapSet_self _ _ _), ?_⟩
    have hst : storeCover quotaOk w.localStorage (cacheKey path) s = w.localStorage := by
      simp [storeCover, Nat.not_lt.mpr hlen]
    simp [coverStart, mapGet, hst, hdur]

/-- Witness for C6: a first render of `/docs/a.pdf` with empty caches that
yields an image of 2,000,000 code units; once memory is cleared the path
misses both tiers again. -/
theorem cover_cache_write_witness :
    2000000 ≤ jsLength (String.mk (List.replicate 2000000 'a')) ∧
    (coverStart { (renderFirstPageCover
        (Pdf.page 600 (fun _ => Raster.image (String.mk (List.replicate 2000000 'a'))) true)
        (fun _ _ _ => true) { coverCache := [], localStorage := some [], pdfLog := [] }
        "/docs/a.pdf" 1200).1 with coverCache := [] } "/docs/a.pdf").2 = none :=
  ⟨(jsLength_replicate 2000000).ge,
    ((cover_cache_write (fun _ _ _ => true)
      { coverCache := [], localStorage := some [], pdfLog := [] } "/docs/a.pdf" 1200 600
      (fun _ => Raster.image (String.mk (List.replicate 2000000 'a'))) true
      (String.mk (List.replicate 2000000 'a')) rfl rfl rfl).2.2.2.2
      (jsLength_replicate 2000000).ge).2⟩

/-- C7 as stated fails: two overlapping calls for `/docs/Edition%209.pdf`
against empty caches invoke `getDocument` twice. -/
theorem overlapping_calls_render_twice :
    renderCount (overlappingCalls
      (Pdf.page 600 (fun _ => Raster.image "data:,") true)
      (Pdf.page 600 (fun _ => Raster.image "data:,") true)
      (fun _ _ _ => true) { coverCache := [], localStorage := some [], pdfLog := [] }
      "/docs/Edition%209.pdf" 1200).1 "/docs/Edition%209.pdf" = 2 := by
  rfl

/-- C7, amended: renders are not coalesced while in flight. For a path missing
from both tiers, a second call made before the first call's document has
loaded invokes the PDF engine again (two invocations in total), and each
caller receives the outcome of its own invocation; only a call made after a
successful one has finished is answered from the cache, so that two calls in
sequence invoke the engine once. -/
theorem overlapping_calls_not_coalesced (doc₁ doc₂ : Pdf)
    (quotaOk : List (String × String) → String → String → Bool)
    (w : World) (path : String) (t : ℚ)
    (hmem : mapGet w.coverCache path = none)
    (hdur : cachedCover w.localStorage (cacheKey path) = none) :
    renderCount (overlappingCalls doc₁ doc₂ quotaOk w path t).1 path = renderCount w path + 2 ∧
    (overlappingCalls doc₁ doc₂ quotaOk w path t).2.1 =
      (renderFirstPageCover doc₁ quotaOk w path t).2 ∧
    (overlappingCalls doc₁ doc₂ quotaOk w path t).2.2 =
      (renderFirstPageCover doc₂ quotaOk w path t).2 ∧
    (∀ img, (renderFirstPageCover doc₁ quotaOk w path t).2 = Except.ok img →
      renderFirstPageCover doc₂ quotaOk (renderFirstPageCover doc₁ quotaOk w path t).1 path t =
        ((renderFirstPageCover doc₁ quotaOk w path t).1, Except.ok img) ∧
      renderCount (renderFirstPageCover doc₁ quotaOk w path t).1 path =
        renderCount w path + 1) := by
  have hs₁ := coverStart_miss w path hmem hdur
  have hs₂ : coverStart { w with pdfLog := w.pdfLog ++ [PdfCall.getDocument path] } path =
      ({ w with pdfLog := w.pdfLog ++ [PdfCall.getDocument path] ++
          [PdfCall.getDocument path] }, none) :=
    coverStart_miss _ path hmem hdur
  have hres : ∀ (doc : Pdf) (w₁ w₂ : World),
      (coverFinish doc quotaOk w₁ path t).2 = (coverFinish doc quotaOk w₂ path t).2 := by
    intro doc w₁ w₂
    unfold coverFinish
    cases doc with
    | openFails => rfl
    | pageFails => rfl
    | page width raster destroyOk =>
      simp only
      cases raster (renderScale t width) <;> rfl
  have hseq : renderCount (renderFirstPageCover doc₁ quotaOk w path t).1 path =
      renderCount w path + 1 := by
    simp only [renderFirstPageCover, hs₁, coverResume]
    rw [renderCount_coverFinish]
    simp [renderCount, List.count_append]
  refine ⟨?_, ?_, ?_, ?_⟩
  · simp only [overlappingCalls, hs₁, hs₂, coverResume]
    rw [renderCount_coverFinish, renderCount_coverFinish]
    simp [renderCount, List.count_append]
  · simp only [overlappingCalls, renderFirstPageCover, hs₁, hs₂, coverResume]
    exact hres _ _ _
  · simp only [overlappingCalls, renderFirstPageCover, hs₁, hs₂, coverResume]
    exact hres _ _ _
  · intro img himg
    refine ⟨?_, hseq⟩
    exact cover_memory_hit doc₂ quotaOk _ path img t
      (cover_after_success doc₁ quotaOk w _ path img t (Prod.ext rfl himg))

/-- Witness for C7 (amended): two overlapping calls on empty caches. -/
theorem overlapping_calls_not_coalesced_witness :
    renderCount (overlappingCalls Pdf.pageFails
      (Pdf.page 600 (fun _ => Raster.image "data:,") true)
      (fun _ _ _ => true) { coverCache := [], localStorage := none, pdfLog := [] }
      "/docs/a.pdf" 1200).1 "/docs/a.pdf" =
    renderCount { coverCache := [], localStorage := none, pdfLog := [] } "/docs/a.pdf" + 2 :=
  (overlapping_calls_not_coalesced Pdf.pageFails
    (Pdf.page 600 (fun _ => Raster.image "data:,") true)
    (fun _ _ _ => true) { coverCache := [], localStorage := none, pdfLog := [] }
    "/docs/a.pdf" 1200 rfl rfl).1

/-- C9: a document that opens but whose page 1 cannot be obtained, rasterised
or encoded is never destroyed: after the rejected call the log holds the
`getDocument` call and no `destroy`, whereas a successful render destroys the
document once. Both cache tiers are untouched by the failed calls. -/
theorem failed_render_leaks_document :
    (renderFirstPageCover Pdf.pageFails (fun _ _ _ => true)
      { coverCache := [], localStorage := some [], pdfLog := [] } "/docs/a.pdf" 1200) =
      ({ coverCache := [], localStorage := some [],
         pdfLog := [PdfCall.getDocument "/docs/a.pdf", PdfCall.getPage "/docs/a.pdf"] },
        Except.error RenderError.page) ∧
    destroyCount (renderFirstPageCover Pdf.pageFails (fun _ _ _ => true)
      { coverCache := [], localStorage := some [], pdfLog := [] } "/docs/a.pdf" 1200).1
      "/docs/a.pdf" = 0 ∧
    destroyCount (renderFirstPageCover (Pdf.page 600 (fun _ => Raster.renderFails) true)
      (fun _ _ _ => true)
      { coverCache := [], localStorage := some [], pdfLog := [] } "/docs/a.pdf" 1200).1
      "/docs/a.pdf" = 0 ∧
    destroyCount (renderFirstPageCover (Pdf.page 600 (fun _ => Raster.encodeFails) true)
      (fun _ _ _ => true)
      { coverCache := [], localStorage := some [], pdfLog := [] } "/docs/a.pdf" 1200).1
      "/docs/a.pdf" = 0 ∧
    destroyCount (renderFirstPageCover (Pdf.page 600 (fun _ => Raster.image "data:,") true)
      (fun _ _ _ => true)
      { coverCache := [], localStorage := some [], pdfLog := [] } "/docs/a.pdf" 1200).1
      "/docs/a.pdf" = 1 := by
  refine ⟨rfl, rfl, rfl, rfl, rfl⟩

end EditionGallery
